import Mathlib

/-!
Verification of the OpenClaw vLLM PD-scheduler core.

Shallow embedding of the TypeScript sources
`extensions/vllm-pd-scheduler/src/worker-pool.ts` (WorkerPool, PDScheduler),
`extensions/vllm-pd-scheduler/src/health.ts` (HealthMonitor counters and
event log, inlined into the scheduler state), and the KVCacheTransferManager
(`kv-cache.ts`).  JavaScript numbers are modelled as `Int` (times, request
counts) or `Nat` (queue sizes, round-robin counters); JS `Map` objects are
modelled as association lists in insertion order, which matches JS `Map`
iteration semantics; `x ?? d` is `Option.getD`; promise rejection is
`Except`.  Request ids `req-${Date.now()}-${++idCounter}` are modelled by
the strictly increasing counter component, which is what makes them unique.
-/

set_option maxHeartbeats 1000000

namespace OpenClaw

/-- `WorkerRole` from `types.ts`: "prefill" | "decode". -/
inductive WorkerRole where
  | prefill
  | decode
deriving DecidableEq

/-- `WorkerStatus` from `types.ts`: "idle" | "busy" | "draining" | "offline". -/
inductive WorkerStatus where
  | idle
  | busy
  | draining
  | offline
deriving DecidableEq

/-- `SchedulingStrategy` from `types.ts`. -/
inductive SchedulingStrategy where
  | roundRobin
  | leastLoaded
  | latencyAware
deriving DecidableEq

/-- `WorkerInfo` from `types.ts`.  `gpuUtilization` is a JS float in `[0,1]`;
only its ordering is ever used, so it is modelled as `Int`. -/
structure WorkerInfo where
  id : String
  endpoint : String
  role : WorkerRole
  status : WorkerStatus
  gpuUtilization : Int
  activeRequests : Int
  maxConcurrency : Int
  lastHealthCheck : Int
  modelId : String
deriving DecidableEq

/-- `WorkerSeedConfig` from `types.ts`. -/
structure WorkerSeedConfig where
  id : String
  endpoint : String
  role : WorkerRole
  modelId : String
  maxConcurrency : Option Int := none
deriving DecidableEq

/-- The `WorkerPool` state from `worker-pool.ts`: the `workers` Map (as a
list in insertion order) and the two per-role round-robin counters. -/
structure WorkerPool where
  workers : List WorkerInfo
  rrPrefill : Nat
  rrDecode : Nat
deriving DecidableEq

/-- The empty pool (`new WorkerPool()`). -/
def emptyPool : WorkerPool := { workers := [], rrPrefill := 0, rrDecode := 0 }

namespace WorkerPool

/-- Read `this.roundRobinCounters[role]`. -/
def rrCounter (p : WorkerPool) : WorkerRole → Nat
  | .prefill => p.rrPrefill
  | .decode => p.rrDecode

/-- `this.roundRobinCounters[role]++`. -/
def bumpCounter (p : WorkerPool) : WorkerRole → WorkerPool
  | .prefill => { p with rrPrefill := p.rrPrefill + 1 }
  | .decode => { p with rrDecode := p.rrDecode + 1 }

/-- `this.workers.get(workerId)` (`WorkerPool.get` in the source). -/
def findWorker (p : WorkerPool) (workerId : String) : Option WorkerInfo :=
  p.workers.find? (fun w => w.id == workerId)

/-- `this.workers.set(id, info)`: JS `Map.set` keeps the original insertion
position when the key exists, otherwise appends. -/
def setWorker (ws : List WorkerInfo) (info : WorkerInfo) : List WorkerInfo :=
  if ws.any (fun w => w.id == info.id) then
    ws.map (fun w => if w.id == info.id then info else w)
  else ws ++ [info]

/-- `WorkerPool.register`: build the new `WorkerInfo`, preserving
`status`/`gpuUtilization`/`activeRequests` of an existing entry
(`existing?.x ?? default`), and store it.  Returns the info and the pool. -/
def register (p : WorkerPool) (seed : WorkerSeedConfig) (now : Int) :
    WorkerInfo × WorkerPool :=
  let existing := findWorker p seed.id
  let info : WorkerInfo :=
    { id := seed.id
      endpoint := seed.endpoint
      role := seed.role
      status := (existing.map (·.status)).getD .idle
      gpuUtilization := (existing.map (·.gpuUtilization)).getD 0
      activeRequests := (existing.map (·.activeRequests)).getD 0
      maxConcurrency := seed.maxConcurrency.getD 32
      lastHealthCheck := now
      modelId := seed.modelId }
  (info, { p with workers := setWorker p.workers info })

/-- `WorkerPool.list(role?)` with a role filter. -/
def listRole (p : WorkerPool) (role : WorkerRole) : List WorkerInfo :=
  p.workers.filter (fun w => w.role == role)

/-- The predicate of `WorkerPool.available`: status idle or busy, and
`activeRequests < maxConcurrency`. -/
def canAccept (w : WorkerInfo) : Bool :=
  (w.status == .idle || w.status == .busy) &&
    w.activeRequests < w.maxConcurrency

/-- `WorkerPool.available(role)`. -/
def available (p : WorkerPool) (role : WorkerRole) : List WorkerInfo :=
  (listRole p role).filter canAccept

/-- `candidates.reduce((best, cur) => cur.activeRequests < best.activeRequests ? cur : best)`. -/
def selectLeastLoaded (c : WorkerInfo) (cs : List WorkerInfo) : WorkerInfo :=
  cs.foldl (fun best cur =>
    if cur.activeRequests < best.activeRequests then cur else best) c

/-- `candidates.reduce((best, cur) => cur.gpuUtilization < best.gpuUtilization ? cur : best)`. -/
def selectLatencyAware (c : WorkerInfo) (cs : List WorkerInfo) : WorkerInfo :=
  cs.foldl (fun best cur =>
    if cur.gpuUtilization < best.gpuUtilization then cur else best) c

/-- `WorkerPool.select(role, strategy)`.  Returns the chosen worker (if any)
and the resulting pool: only the round-robin branch mutates state
(`selectRoundRobin` advances the per-role counter).  When there are no
candidates the function returns before reaching any strategy branch, so the
counter is untouched. -/
def select (p : WorkerPool) (role : WorkerRole) (strategy : SchedulingStrategy) :
    Option WorkerInfo × WorkerPool :=
  let candidates := available p role
  if candidates.isEmpty then (none, p)
  else
    match strategy with
    | .roundRobin =>
        (candidates[rrCounter p role % candidates.length]?, bumpCounter p role)
    | .leastLoaded =>
        match candidates with
        | [] => (none, p)
        | c :: cs => (some (selectLeastLoaded c cs), p)
    | .latencyAware =>
        match candidates with
        | [] => (none, p)
        | c :: cs => (some (selectLatencyAware c cs), p)

/-- The optional-field patch taken by `WorkerPool.updateMetrics`. -/
structure MetricsPatch where
  gpuUtilization : Option Int := none
  activeRequests : Option Int := none
  status : Option WorkerStatus := none
deriving DecidableEq

/-- `WorkerPool.updateMetrics(workerId, metrics)`: no-op on an unknown id,
otherwise patch the defined fields and refresh `lastHealthCheck`. -/
def updateMetrics (p : WorkerPool) (workerId : String) (m : MetricsPatch)
    (now : Int) : WorkerPool :=
  if (findWorker p workerId).isNone then p
  else
    { p with workers := p.workers.map (fun w =>
        if w.id == workerId then
          { w with
            gpuUtilization := m.gpuUtilization.getD w.gpuUtilization
            activeRequests := m.activeRequests.getD w.activeRequests
            status := m.status.getD w.status
            lastHealthCheck := now }
        else w) }

/-- `WorkerPool.markOffline(workerId)`. -/
def markOffline (p : WorkerPool) (workerId : String) : WorkerPool :=
  { p with workers := p.workers.map (fun w =>
      if w.id == workerId then { w with status := .offline } else w) }

/-- `WorkerPool.incrementActive(workerId)`: `activeRequests++`, and the
status flips to busy when `activeRequests >= maxConcurrency`.  Note there is
no clamp against exceeding `maxConcurrency`. -/
def incrementActive (p : WorkerPool) (workerId : String) : WorkerPool :=
  { p with workers := p.workers.map (fun w =>
      if w.id == workerId then
        let a := w.activeRequests + 1
        { w with
          activeRequests := a
          status := if w.maxConcurrency ≤ a then .busy else w.status }
      else w) }

/-- `WorkerPool.decrementActive(workerId)`:
`activeRequests = Math.max(0, activeRequests - 1)`, and a busy worker that
drops below `maxConcurrency` becomes idle. -/
def decrementActive (p : WorkerPool) (workerId : String) : WorkerPool :=
  { p with workers := p.workers.map (fun w =>
      if w.id == workerId then
        let a := max 0 (w.activeRequests - 1)
        { w with
          activeRequests := a
          status :=
            if w.status == .busy && a < w.maxConcurrency then .idle
            else w.status }
      else w) }

/-- `WorkerPool.expireStaleWorkers(timeoutMs)`: every non-offline worker with
`now - lastHealthCheck > timeoutMs` becomes offline; their ids are returned. -/
def expireStaleWorkers (p : WorkerPool) (timeoutMs : Int) (now : Int) :
    List String × WorkerPool :=
  let stale := fun (w : WorkerInfo) =>
    w.status != .offline && timeoutMs < now - w.lastHealthCheck
  ((p.workers.filter stale).map (·.id),
   { p with workers := p.workers.map (fun w =>
       if stale w then { w with status := .offline } else w) })

end WorkerPool

/-- The public `WorkerPool` operations, as invokable events for stating
invariants over arbitrary call sequences. -/
inductive PoolOp where
  | register (seed : WorkerSeedConfig) (now : Int)
  | incrementActive (workerId : String)
  | decrementActive (workerId : String)
  | updateMetrics (workerId : String) (m : WorkerPool.MetricsPatch) (now : Int)
  | markOffline (workerId : String)
  | expireStaleWorkers (timeoutMs : Int) (now : Int)

/-- Apply one pool operation. -/
def applyPoolOp (p : WorkerPool) : PoolOp → WorkerPool
  | .register seed now => (WorkerPool.register p seed now).2
  | .incrementActive workerId => WorkerPool.incrementActive p workerId
  | .decrementActive workerId => WorkerPool.decrementActive p workerId
  | .updateMetrics workerId m now => WorkerPool.updateMetrics p workerId m now
  | .markOffline workerId => WorkerPool.markOffline p workerId
  | .expireStaleWorkers t now => (WorkerPool.expireStaleWorkers p t now).2

/-- Iterate `select(role, "round-robin")` the given number of times,
collecting each call's result and threading the pool state. -/
def selectN : Nat → WorkerPool → WorkerRole → List (Option WorkerInfo) × WorkerPool
  | 0, p, _ => ([], p)
  | n + 1, p, role =>
    let step := WorkerPool.select p role .roundRobin
    let rest := selectN n step.2 role
    (step.1 :: rest.1, rest.2)

example :
    ((WorkerPool.register emptyPool
      { id := "p1", endpoint := "e", role := .prefill, modelId := "m" } 0).1).status
      = .idle := by decide

-- ---------------------------------------------------------------------------
-- Scheduler (worker-pool.ts: PDScheduler, with the HealthMonitor counters and
-- event log from health.ts inlined as scheduler state)
-- ---------------------------------------------------------------------------

/-- `RequestPriority` from `types.ts`. -/
inductive RequestPriority where
  | high
  | normal
  | low
deriving DecidableEq

/-- `RequestPhase` from `types.ts`. -/
inductive RequestPhase where
  | queued
  | prefilling
  | transferring
  | decoding
  | completed
  | failed
deriving DecidableEq

/-- `PRIORITY_ORDER` from `scheduler.ts`: high = 0, normal = 1, low = 2. -/
def priorityRank : RequestPriority → Nat
  | .high => 0
  | .normal => 1
  | .low => 2

/-- `InferenceRequest` from `types.ts`, restricted to the fields the
scheduler core reads.  `requestId` is the strictly increasing `idCounter`
component of `req-${Date.now()}-${++idCounter}`. -/
structure InferenceRequest where
  requestId : Nat
  modelId : String
  prompt : String
  priority : RequestPriority
  phase : RequestPhase
  createdAt : Int
  timeoutMs : Int
deriving DecidableEq

/-- The comparator of the dispatch-tick sort:
`(a, b) => PRIORITY_ORDER[a.priority] - PRIORITY_ORDER[b.priority] || a.createdAt - b.createdAt`,
read as a boolean "a sorts no later than b" (comparator value ≤ 0). -/
def reqLE (a b : InferenceRequest) : Bool :=
  decide (priorityRank a.priority < priorityRank b.priority) ||
    (decide (priorityRank a.priority = priorityRank b.priority) &&
      decide (a.createdAt ≤ b.createdAt))

/-- The timeout sweep predicate of the dispatch tick:
`req.timeoutMs && now - req.createdAt > req.timeoutMs`.  A JS falsy (zero)
`timeoutMs` short-circuits the conjunction. -/
def expiredB (now : Int) (r : InferenceRequest) : Bool :=
  r.timeoutMs != 0 && r.timeoutMs < now - r.createdAt

/-- `SchedulerEvent` from `types.ts` (payload timestamps omitted; the event
kinds emitted outside of the modelled operations are kept for completeness). -/
inductive SchedulerEvent where
  | requestQueued (requestId : Nat)
  | prefillStarted (requestId : Nat)
  | prefillCompleted (requestId : Nat)
  | transferStarted (requestId : Nat)
  | transferCompleted (requestId : Nat)
  | decodeStarted (requestId : Nat)
  | decodeCompleted (requestId : Nat)
  | requestCompleted (requestId : Nat)
  | requestFailed (requestId : Nat) (error : String)
  | workerOffline (workerId : String)
deriving DecidableEq

/-- The scheduler state: config fields read by the core, the worker pool,
the queue, the in-flight resolver table (its key list, in insertion order),
the id counter, and the inlined HealthMonitor counters and event log.
`pipeline` is the set of request ids currently held by a running
`runPipeline` invocation (each launched request is owned by exactly one
pipeline frame until it settles). -/
structure PDScheduler where
  strategy : SchedulingStrategy
  maxQueueSize : Nat
  defaultRequestTimeoutMs : Int
  pool : WorkerPool
  queue : List InferenceRequest
  inflight : List Nat
  pipeline : List Nat
  idCounter : Nat
  completedCount : Nat
  failedCount : Nat
  events : List SchedulerEvent
deriving DecidableEq

/-- `HealthMonitor.emit`: push onto the event log and drop the oldest entry
past the 1000-event cap. -/
def emit (s : PDScheduler) (e : SchedulerEvent) : PDScheduler :=
  let log := s.events ++ [e]
  { s with events := if 1000 < log.length then log.drop 1 else log }

/-- The options object taken by `PDScheduler.submit`. -/
structure SubmitOpts where
  modelId : String
  prompt : String
  priority : Option RequestPriority := none
  timeoutMs : Option Int := none
deriving DecidableEq

/-- The error kinds a `submit` promise can reject with synchronously. -/
inductive SchedError where
  | queueFull
deriving DecidableEq

/-- The request object built by `PDScheduler.submit`:
`timeoutMs: opts.timeoutMs ?? this.config.defaultRequestTimeoutMs` — note
`??` only replaces null/undefined, so an explicit 0 is kept. -/
def mkRequest (s : PDScheduler) (opts : SubmitOpts) (now : Int) :
    InferenceRequest :=
  { requestId := s.idCounter + 1
    modelId := opts.modelId
    prompt := opts.prompt
    priority := opts.priority.getD .normal
    phase := .queued
    createdAt := now
    timeoutMs := opts.timeoutMs.getD s.defaultRequestTimeoutMs }

/-- `PDScheduler.submit`: reject with "Scheduler queue is full" when
`queue.length >= maxQueueSize` (before anything is allocated), otherwise
create the request, push it on the queue, register the resolver in the
in-flight table, and emit `request_queued`. -/
def submit (s : PDScheduler) (opts : SubmitOpts) (now : Int) :
    PDScheduler × Except SchedError Nat :=
  if s.maxQueueSize ≤ s.queue.length then (s, .error .queueFull)
  else
    let req := mkRequest s opts now
    let s1 := { s with
      idCounter := s.idCounter + 1
      queue := s.queue ++ [req]
      inflight := s.inflight ++ [req.requestId] }
    (emit s1 (.requestQueued req.requestId), .ok req.requestId)

/-- `PDScheduler.fail(requestId, error)`: unconditionally record the failure
counter and emit `request_failed`; only then look up the in-flight entry and,
when present, remove it and reject the pending promise. -/
def fail (s : PDScheduler) (requestId : Nat) (error : String) : PDScheduler :=
  let s1 := { s with failedCount := s.failedCount + 1 }
  let s2 := emit s1 (.requestFailed requestId error)
  if requestId ∈ s2.inflight then
    { s2 with inflight := s2.inflight.erase requestId }
  else s2

/-- The tail of `runPipeline` on success: `health.recordCompletion` (counter
part), the completion events, and settlement of the in-flight entry. -/
def completeReq (s : PDScheduler) (requestId : Nat) : PDScheduler :=
  let s1 := { s with completedCount := s.completedCount + 1 }
  let s2 := emit s1 (.requestCompleted requestId)
  if requestId ∈ s2.inflight then
    { s2 with inflight := s2.inflight.erase requestId }
  else s2

/-- The timeout sweep of the dispatch tick: `fail` each expired request
(the loop walks the sorted queue tail-first, so the expired requests are
failed in reverse sorted order). -/
def sweepFail (s : PDScheduler) (exps : List InferenceRequest) : PDScheduler :=
  exps.foldl (fun st r => fail st r.requestId "Request timed out in queue") s

/-- `PDScheduler.dispatch` (one tick): return if the queue is empty; sort by
`(priority rank, createdAt)`; splice out and `fail` the expired entries
(tail-first); select a prefill worker — if none, return without draining the
queue; otherwise shift the head request and launch its pipeline.  The second
component is the launched request and worker, if any. -/
def dispatch (s : PDScheduler) (now : Int) :
    PDScheduler × Option (InferenceRequest × WorkerInfo) :=
  if s.queue.length = 0 then (s, none)
  else
    let sorted := s.queue.mergeSort reqLE
    let keep := sorted.filter (fun r => !expiredB now r)
    let exps := (sorted.filter (fun r => expiredB now r)).reverse
    let s1 := sweepFail { s with queue := keep } exps
    let sel := WorkerPool.select s1.pool .prefill s1.strategy
    match sel.1 with
    | none => ({ s1 with pool := sel.2 }, none)
    | some w =>
      match s1.queue with
      | [] => ({ s1 with pool := sel.2 }, none)
      | r :: rest =>
        ({ s1 with
            pool := sel.2
            queue := rest
            pipeline := s1.pipeline ++ [r.requestId] },
         some (r, w))

/-- A `runPipeline` invocation settling its request: on success the
completion tail of `runPipeline` runs, on error the catch-all invokes
`fail`.  Only a request currently owned by a pipeline frame can settle. -/
def pipelineFinish (s : PDScheduler) (requestId : Nat) (result : Option String) :
    PDScheduler :=
  if requestId ∈ s.pipeline then
    let s1 := { s with pipeline := s.pipeline.erase requestId }
    match result with
    | none => completeReq s1 requestId
    | some msg => fail s1 requestId msg
  else s

/-- The configuration fields of `PDSchedulerConfig` the scheduler core reads. -/
structure PDSchedulerConfig where
  strategy : SchedulingStrategy
  maxQueueSize : Nat
  defaultRequestTimeoutMs : Int
  workers : List WorkerSeedConfig
deriving DecidableEq

/-- The scheduler constructor: empty queue and tables, seed workers
registered into the pool. -/
def initSched (cfg : PDSchedulerConfig) (now : Int) : PDScheduler :=
  { strategy := cfg.strategy
    maxQueueSize := cfg.maxQueueSize
    defaultRequestTimeoutMs := cfg.defaultRequestTimeoutMs
    pool := cfg.workers.foldl (fun p seed => (WorkerPool.register p seed now).2) emptyPool
    queue := []
    inflight := []
    pipeline := []
    idCounter := 0
    completedCount := 0
    failedCount := 0
    events := [] }

/-- The externally driven scheduler events: a `submit` call, a dispatch
tick, and a pipeline settling its launched request. -/
inductive SchedOp where
  | submit (opts : SubmitOpts) (now : Int)
  | tick (now : Int)
  | finish (requestId : Nat) (result : Option String)

/-- Apply one scheduler operation. -/
def applyOp (s : PDScheduler) : SchedOp → PDScheduler
  | .submit opts now => (submit s opts now).1
  | .tick now => (dispatch s now).1
  | .finish requestId result => pipelineFinish s requestId result

/-- Run a sequence of scheduler operations from a fresh scheduler. -/
def runSched (cfg : PDSchedulerConfig) (now : Int) (ops : List SchedOp) :
    PDScheduler :=
  ops.foldl applyOp (initSched cfg now)

-- ---------------------------------------------------------------------------
-- KVCacheTransferManager (kv-cache.ts)
-- ---------------------------------------------------------------------------

/-- `KVCacheTransferRequest` from `types.ts`. -/
structure KVCacheTransferRequest where
  requestId : String
  sourceEndpoint : String
  targetEndpoint : String
  cacheHandle : String
  cacheSizeBytes : Int
deriving DecidableEq

/-- `KVCacheTransferResult` from `types.ts`. -/
structure KVCacheTransferResult where
  requestId : String
  success : Bool
  transferDurationMs : Int
  targetCacheHandle : Option String
  error : Option String
deriving DecidableEq

/-- Outcome of one of the two HTTP calls made by `doTransfer`: a successful
response carrying the parsed body field, a non-success HTTP status with its
body text, or a thrown network/abort error (this is also how the
`timeoutMs` deadline trips: the `AbortController` makes the in-flight fetch
throw). -/
inductive HttpOutcome where
  | ok (body : String)
  | httpStatus (code : Nat) (text : String)
  | netError (msg : String)
deriving DecidableEq

/-- The transport behaviour seen by one `doTransfer` run: the outcome of the
export call and of the import call. -/
structure TransferEnv where
  exportOutcome : HttpOutcome
  importOutcome : HttpOutcome
deriving DecidableEq

/-- `KVCacheTransferManager.doTransfer`: export the cache from the source
worker, then import it into the target worker; any non-success status or
thrown error becomes an `Except.error` (in the source, a thrown `Error`
caught by `executeTransfer`). -/
def doTransfer (env : TransferEnv) (_req : KVCacheTransferRequest) :
    Except String String :=
  match env.exportOutcome with
  | .netError msg => .error msg
  | .httpStatus code text =>
      .error s!"KV cache export failed ({code}): {text}"
  | .ok transferToken =>
    match env.importOutcome with
    | .netError msg => .error msg
    | .httpStatus code text =>
        .error s!"KV cache import failed ({code}): {text}"
    | .ok cacheHandle =>
        let _ := transferToken
        .ok cacheHandle

/-- `KVCacheTransferManager.executeTransfer`, result part: the try/catch
around `doTransfer` maps success to `{success: true, targetCacheHandle}` and
any thrown error to `{success: false, error}` — it never re-throws, so the
returned promise always resolves with a result object.  `dur` stands for the
measured `Date.now() - start`. -/
def executeTransferResult (env : TransferEnv) (req : KVCacheTransferRequest)
    (dur : Int) : KVCacheTransferResult :=
  match doTransfer env req with
  | .ok handle =>
      { requestId := req.requestId
        success := true
        transferDurationMs := dur
        targetCacheHandle := some handle
        error := none }
  | .error msg =>
      { requestId := req.requestId
        success := false
        transferDurationMs := dur
        targetCacheHandle := none
        error := some msg }

/-- The concurrency bookkeeping state of a `KVCacheTransferManager`:
`activeTransfers` and the FIFO `pending` list are the fields of the class;
`started` records the order in which `executeTransfer` invocations began,
`pendingArrived` the order in which jobs were pushed onto `pending`, and
`pendingStarted` the order in which jobs taken from `pending` began
executing (history variables for stating the FIFO property). -/
structure KVManagerState where
  maxConcurrent : Nat
  activeTransfers : Nat
  pending : List KVCacheTransferRequest
  started : List KVCacheTransferRequest
  pendingArrived : List KVCacheTransferRequest
  pendingStarted : List KVCacheTransferRequest
deriving DecidableEq

/-- A fresh manager (`new KVCacheTransferManager(config)`). -/
def initKV (maxConcurrent : Nat) : KVManagerState :=
  { maxConcurrent := maxConcurrent
    activeTransfers := 0
    pending := []
    started := []
    pendingArrived := []
    pendingStarted := [] }

/-- The entry of `executeTransfer`: `this.activeTransfers++` and the
invocation starts running (`fromPending` tags jobs launched by
`drainPending`). -/
def startExec (s : KVManagerState) (req : KVCacheTransferRequest)
    (fromPending : Bool) : KVManagerState :=
  { s with
    activeTransfers := s.activeTransfers + 1
    started := s.started ++ [req]
    pendingStarted :=
      if fromPending then s.pendingStarted ++ [req] else s.pendingStarted }

/-- `KVCacheTransferManager.transfer`: run immediately when
`activeTransfers < maxConcurrent`, otherwise push onto the pending list. -/
def transfer (s : KVManagerState) (req : KVCacheTransferRequest) :
    KVManagerState :=
  if s.activeTransfers < s.maxConcurrent then startExec s req false
  else
    { s with
      pending := s.pending ++ [req]
      pendingArrived := s.pendingArrived ++ [req] }

/-- The `while` loop of `drainPending`, with fuel bounding the iteration
count (the pending list shrinks by one per iteration, so
`s.pending.length` fuel is exact). -/
def drainGo : Nat → KVManagerState → KVManagerState
  | 0, s => s
  | fuel + 1, s =>
    match s.pending with
    | [] => s
    | j :: rest =>
      if s.activeTransfers < s.maxConcurrent then
        drainGo fuel (startExec { s with pending := rest } j true)
      else s

/-- `KVCacheTransferManager.drainPending`: shift jobs off the front of the
pending list into execution while a concurrency slot is free. -/
def drainPending (s : KVManagerState) : KVManagerState :=
  drainGo s.pending.length s

/-- The `finally` block of a settling `executeTransfer`:
`this.activeTransfers--; this.drainPending()`.  Only an actually running
transfer can settle, so this is a no-op at `activeTransfers = 0`. -/
def kvFinish (s : KVManagerState) : KVManagerState :=
  if s.activeTransfers = 0 then s
  else drainPending { s with activeTransfers := s.activeTransfers - 1 }

/-- The observable events of a transfer manager: a `transfer` call arriving
and a running transfer settling. -/
inductive KVEvent where
  | arrive (req : KVCacheTransferRequest)
  | finish

/-- Apply one transfer-manager event. -/
def kvStep (s : KVManagerState) : KVEvent → KVManagerState
  | .arrive req => transfer s req
  | .finish => kvFinish s

/-- Run a sequence of transfer-manager events from a fresh manager. -/
def runKV (maxConcurrent : Nat) (events : List KVEvent) : KVManagerState :=
  events.foldl kvStep (initKV maxConcurrent)

-- ---------------------------------------------------------------------------
-- Invariant predicates
-- ---------------------------------------------------------------------------

/-- Health probes report `body.active_requests ?? 0`, a nonnegative request
count; this predicate singles out `updateMetrics` calls whose patch respects
that. -/
def goodMetricsOp : PoolOp → Prop
  | .updateMetrics _ m _ => ∀ a, m.activeRequests = some a → 0 ≤ a
  | _ => True

/-- Every worker of the pool has a nonnegative active-request counter. -/
def poolNonneg (p : WorkerPool) : Prop :=
  ∀ w ∈ p.workers, 0 ≤ w.activeRequests

/-- The scheduler's structural invariant: in-flight ids are distinct and
bounded by the id counter, queued requests are registered in-flight with
distinct ids, and pipeline-owned ids are in-flight, distinct, and disjoint
from the queue. -/
def SInv (s : PDScheduler) : Prop :=
  s.inflight.Nodup ∧
  (∀ i ∈ s.inflight, 1 ≤ i ∧ i ≤ s.idCounter) ∧
  (∀ r ∈ s.queue, r.requestId ∈ s.inflight) ∧
  (s.queue.map (·.requestId)).Nodup ∧
  (∀ i ∈ s.pipeline, i ∈ s.inflight) ∧
  (∀ r ∈ s.queue, r.requestId ∉ s.pipeline) ∧
  s.pipeline.Nodup

/-- The transfer-manager invariant: the concurrency cap is respected, the
pending list is busy-saturated (a nonempty pending list means every slot is
taken), and the jobs taken off the pending list so far, followed by the jobs
still pending, are exactly the jobs ever pushed onto the pending list in
arrival order (FIFO). -/
def kvInv (s : KVManagerState) : Prop :=
  s.activeTransfers ≤ s.maxConcurrent ∧
  (s.pending ≠ [] → s.activeTransfers = s.maxConcurrent) ∧
  s.pendingStarted ++ s.pending = s.pendingArrived

-- ---------------------------------------------------------------------------
-- Concrete fixtures for witnesses and counterexamples
-- ---------------------------------------------------------------------------

/-- A prefill worker seed with `maxConcurrency = 1`. -/
def seedP1cap1 : WorkerSeedConfig :=
  { id := "p1", endpoint := "http://p1:8000", role := .prefill,
    modelId := "m1", maxConcurrency := some 1 }

/-- A prefill worker seed with default `maxConcurrency`. -/
def seedP2 : WorkerSeedConfig :=
  { id := "p2", endpoint := "http://p2:8000", role := .prefill, modelId := "m1" }

/-- A second prefill worker seed with default `maxConcurrency`. -/
def seedP3 : WorkerSeedConfig :=
  { id := "p3", endpoint := "http://p3:8000", role := .prefill, modelId := "m1" }

/-- A pool holding two available prefill workers. -/
def pool2 : WorkerPool :=
  (WorkerPool.register (WorkerPool.register emptyPool seedP2 0).2 seedP3 0).2

/-- The pool of `seedP2` after a probe marked the worker busy. -/
def pBusy : WorkerPool :=
  WorkerPool.updateMetrics (WorkerPool.register emptyPool seedP2 0).2 "p2"
    { status := some .busy } 1

/-- The worker stored in `pBusy`. -/
def wBusy : WorkerInfo :=
  { id := "p2", endpoint := "http://p2:8000", role := .prefill,
    status := .busy, gpuUtilization := 0, activeRequests := 0,
    maxConcurrency := 32, lastHealthCheck := 1, modelId := "m1" }

/-- A scheduler config with room in the queue and no workers. -/
def cfg10 : PDSchedulerConfig :=
  { strategy := .leastLoaded, maxQueueSize := 10,
    defaultRequestTimeoutMs := 5000, workers := [] }

/-- A scheduler config with `maxQueueSize = 0`. -/
def cfg0 : PDSchedulerConfig :=
  { strategy := .leastLoaded, maxQueueSize := 0,
    defaultRequestTimeoutMs := 5000, workers := [] }

/-- A plain submit-options value. -/
def optsA : SubmitOpts := { modelId := "m", prompt := "hello" }

/-- Submit options with an explicit `timeoutMs = 0`. -/
def opts0 : SubmitOpts := { modelId := "m", prompt := "z", timeoutMs := some 0 }

/-- A concrete transfer job. -/
def jobA : KVCacheTransferRequest :=
  { requestId := "r1", sourceEndpoint := "http://p1:8000",
    targetEndpoint := "http://d1:8000", cacheHandle := "h1", cacheSizeBytes := 0 }

/-- A second concrete transfer job. -/
def jobB : KVCacheTransferRequest :=
  { requestId := "r2", sourceEndpoint := "http://p1:8000",
    targetEndpoint := "http://d1:8000", cacheHandle := "h2", cacheSizeBytes := 0 }

/-- A transport environment in which both calls succeed. -/
def envOK : TransferEnv := { exportOutcome := .ok "tok", importOutcome := .ok "h2" }

/-- A transport environment in which the export call returns HTTP 500. -/
def envExportFail : TransferEnv :=
  { exportOutcome := .httpStatus 500 "boom", importOutcome := .ok "h2" }

-- ---------------------------------------------------------------------------
-- Frame lemmas
-- ---------------------------------------------------------------------------

theorem emit_frame (s : PDScheduler) (e : SchedulerEvent) :
    (emit s e).queue = s.queue ∧ (emit s e).inflight = s.inflight ∧
    (emit s e).pipeline = s.pipeline ∧ (emit s e).pool = s.pool ∧
    (emit s e).strategy = s.strategy ∧ (emit s e).idCounter = s.idCounter ∧
    (emit s e).failedCount = s.failedCount ∧
    (emit s e).completedCount = s.completedCount := by
  refine ⟨rfl, rfl, rfl, rfl, rfl, rfl, rfl, rfl⟩

theorem fail_frame (s : PDScheduler) (rid : Nat) (err : String) :
    (fail s rid err).queue = s.queue ∧ (fail s rid err).pipeline = s.pipeline ∧
    (fail s rid err).pool = s.pool ∧ (fail s rid err).strategy = s.strategy ∧
    (fail s rid err).idCounter = s.idCounter := by
  by_cases h : rid ∈ s.inflight <;> simp [fail, emit, h]

theorem mem_fail_inflight (s : PDScheduler) (rid : Nat) (err : String)
    (x : Nat) (hx : x ∈ s.inflight) (hne : x ≠ rid) :
    x ∈ (fail s rid err).inflight := by
  by_cases h : rid ∈ s.inflight <;>
    simp only [fail, emit, h, if_true, if_false, ite_true, ite_false]
  · exact (List.mem_erase_of_ne hne).mpr hx
  · exact hx

theorem fail_inflight_subset (s : PDScheduler) (rid : Nat) (err : String) :
    (fail s rid err).inflight ⊆ s.inflight := by
  by_cases h : rid ∈ s.inflight <;>
    simp only [fail, emit, h, if_true, if_false, ite_true, ite_false]
  · exact fun x hx => List.mem_of_mem_erase hx
  · exact fun _ hmem => hmem

theorem fail_inflight_nodup (s : PDScheduler) (rid : Nat) (err : String)
    (h : s.inflight.Nodup) : (fail s rid err).inflight.Nodup := by
  by_cases hm : rid ∈ s.inflight <;>
    simp only [fail, emit, hm, if_true, if_false, ite_true, ite_false]
  · exact h.erase rid
  · exact h

theorem sweepFail_frame (exps : List InferenceRequest) (s : PDScheduler) :
    (sweepFail s exps).queue = s.queue ∧
    (sweepFail s exps).pipeline = s.pipeline ∧
    (sweepFail s exps).pool = s.pool ∧
    (sweepFail s exps).strategy = s.strategy ∧
    (sweepFail s exps).idCounter = s.idCounter := by
  induction exps generalizing s with
  | nil => exact ⟨rfl, rfl, rfl, rfl, rfl⟩
  | cons r rs ih =>
    have hf := fail_frame s r.requestId "Request timed out in queue"
    have hr := ih (fail s r.requestId "Request timed out in queue")
    simp only [sweepFail, List.foldl_cons] at *
    exact ⟨hr.1.trans hf.1, hr.2.1.trans hf.2.1, hr.2.2.1.trans hf.2.2.1,
      hr.2.2.2.1.trans hf.2.2.2.1, hr.2.2.2.2.trans hf.2.2.2.2⟩

theorem mem_sweepFail_inflight (exps : List InferenceRequest)
    (s : PDScheduler) (x : Nat) (hx : x ∈ s.inflight)
    (hne : ∀ r ∈ exps, x ≠ r.requestId) :
    x ∈ (sweepFail s exps).inflight := by
  induction exps generalizing s with
  | nil => exact hx
  | cons r rs ih =>
    simp only [sweepFail, List.foldl_cons] at *
    exact ih _ (mem_fail_inflight s r.requestId _ x hx (hne r (by simp)))
      (fun q hq => hne q (by simp [hq]))

theorem sweepFail_inflight_subset (exps : List InferenceRequest)
    (s : PDScheduler) : (sweepFail s exps).inflight ⊆ s.inflight := by
  induction exps generalizing s with
  | nil => exact fun _ h => h
  | cons r rs ih =>
    simp only [sweepFail, List.foldl_cons] at *
    exact fun x hx => fail_inflight_subset s r.requestId _ (ih _ hx)

theorem sweepFail_inflight_nodup (exps : List InferenceRequest)
    (s : PDScheduler) (h : s.inflight.Nodup) :
    (sweepFail s exps).inflight.Nodup := by
  induction exps generalizing s with
  | nil => exact h
  | cons r rs ih =>
    simp only [sweepFail, List.foldl_cons] at *
    exact ih _ (fail_inflight_nodup s r.requestId _ h)

-- ---------------------------------------------------------------------------
-- C2
-- ---------------------------------------------------------------------------

/-- C2: `submit` rejects synchronously with QueueFull exactly when the queue
length at the time of the call is at least `maxQueueSize`; such a rejection
leaves the whole scheduler state (queue, in-flight table, id counter, ...)
unchanged, and with `maxQueueSize = 0` every submit rejects with QueueFull. -/
theorem submit_queueFull_spec (s : PDScheduler) (opts : SubmitOpts) (now : Int) :
    ((submit s opts now).2 = .error .queueFull ↔ s.maxQueueSize ≤ s.queue.length) ∧
    (s.maxQueueSize ≤ s.queue.length → (submit s opts now).1 = s) ∧
    (s.maxQueueSize = 0 →
      (submit s opts now).2 = .error .queueFull ∧ (submit s opts now).1 = s) := by
  by_cases h : s.maxQueueSize ≤ s.queue.length
  · simp [submit, h]
  · refine ⟨⟨fun he => ?_, fun hle => absurd hle h⟩, fun hle => absurd hle h,
      fun h0 => absurd (h0 ▸ Nat.zero_le _) h⟩
    simp [submit, h] at he

/-- Witness for C2 at `maxQueueSize = 0`. -/
theorem submit_queueFull_witness :
    (submit (initSched cfg0 0) optsA 0).2 = .error .queueFull ∧
    (submit (initSched cfg0 0) optsA 0).1 = initSched cfg0 0 :=
  (submit_queueFull_spec (initSched cfg0 0) optsA 0).2.2 rfl

-- ---------------------------------------------------------------------------
-- C7
-- ---------------------------------------------------------------------------

/-- C7: a transfer never escapes as an exception: `executeTransfer` is a
total function into `KVCacheTransferResult` (the catch block converts every
failure of the two-call export/import sequence into a result object).  The
result's `success` flag is true exactly when `doTransfer` succeeded, in
which case the target cache handle is returned; every failure of the
sequence (non-success HTTP status on either call, network error, or the
abort raised by the deadline) yields `success = false` with the error
message set. -/
theorem transfer_result_spec (env : TransferEnv) (req : KVCacheTransferRequest)
    (dur : Int) :
    (executeTransferResult env req dur).requestId = req.requestId ∧
    ((executeTransferResult env req dur).success = true ↔
      ∃ h, doTransfer env req = .ok h) ∧
    (∀ h, doTransfer env req = .ok h →
      (executeTransferResult env req dur).targetCacheHandle = some h ∧
      (executeTransferResult env req dur).error = none) ∧
    (∀ m, doTransfer env req = .error m →
      (executeTransferResult env req dur).success = false ∧
      (executeTransferResult env req dur).error = some m) ∧
    (∀ code text, env.exportOutcome = .httpStatus code text →
      (executeTransferResult env req dur).success = false) ∧
    (∀ m, env.exportOutcome = .netError m →
      (executeTransferResult env req dur).success = false ∧
      (executeTransferResult env req dur).error = some m) ∧
    (∀ code text, env.exportOutcome = .ok "tok" → env.importOutcome = .httpStatus code text →
      (executeTransferResult env req dur).success = false) ∧
    (∀ m, env.importOutcome = .netError m →
      (executeTransferResult env req dur).success = false) := by
  obtain ⟨eo, io⟩ := env
  cases eo <;> cases io <;>
    simp [executeTransferResult, doTransfer]

/-- Witness for C7: a fully successful environment yields `success = true`
with the target handle, and a failing export yields `success = false`. -/
theorem transfer_result_witness :
    (executeTransferResult envOK jobA 5).success = true ∧
    (executeTransferResult envOK jobA 5).targetCacheHandle = some "h2" ∧
    (executeTransferResult envExportFail jobA 5).success = false :=
  ⟨(transfer_result_spec envOK jobA 5).2.1.mpr ⟨"h2", rfl⟩,
   ((transfer_result_spec envOK jobA 5).2.2.1 "h2" rfl).1,
   (transfer_result_spec envExportFail jobA 5).2.2.2.2.1 500 "boom" rfl⟩

-- ---------------------------------------------------------------------------
-- C8
-- ---------------------------------------------------------------------------

/-- C8 counterexample: calling `fail` on an id with no in-flight entry is
not a no-op — on a fresh scheduler it increments the failure counter from 0
to 1 and emits a `request_failed` event. -/
theorem fail_unknown_counterexample :
    42 ∉ (initSched cfg10 0).inflight ∧
    (fail (initSched cfg10 0) 42 "boom").failedCount = 1 ∧
    (initSched cfg10 0).failedCount = 0 ∧
    (fail (initSched cfg10 0) 42 "boom").events
      = [SchedulerEvent.requestFailed 42 "boom"] ∧
    (initSched cfg10 0).events = [] := by
  refine ⟨by decide, rfl, rfl, rfl, rfl⟩

/-- C8 amended: `fail` on an id with no in-flight entry leaves the queue,
in-flight table, pipeline, pool, id counter and completion counter unchanged
and rejects no promise, but it does increment the failure counter and does
emit a `request_failed` event (both happen before the in-flight lookup). -/
theorem fail_unknown_spec (s : PDScheduler) (requestId : Nat) (err : String)
    (h : requestId ∉ s.inflight) :
    fail s requestId err =
      emit { s with failedCount := s.failedCount + 1 }
        (.requestFailed requestId err) ∧
    (fail s requestId err).queue = s.queue ∧
    (fail s requestId err).inflight = s.inflight ∧
    (fail s requestId err).pipeline = s.pipeline ∧
    (fail s requestId err).pool = s.pool ∧
    (fail s requestId err).idCounter = s.idCounter ∧
    (fail s requestId err).completedCount = s.completedCount ∧
    (fail s requestId err).failedCount = s.failedCount + 1 := by
  have he : fail s requestId err =
      emit { s with failedCount := s.failedCount + 1 }
        (.requestFailed requestId err) := by
    simp only [fail, emit, h, if_false, ite_false]
  rw [he]
  exact ⟨rfl, rfl, rfl, rfl, rfl, rfl, rfl, rfl⟩

/-- Witness for C8 amended at a concrete scheduler. -/
theorem fail_unknown_witness :
    (fail (initSched cfg10 0) 7 "x").inflight = (initSched cfg10 0).inflight ∧
    (fail (initSched cfg10 0) 7 "x").failedCount
      = (initSched cfg10 0).failedCount + 1 :=
  ⟨(fail_unknown_spec (initSched cfg10 0) 7 "x" (by decide)).2.2.1,
   (fail_unknown_spec (initSched cfg10 0) 7 "x" (by decide)).2.2.2.2.2.2.2⟩

-- ---------------------------------------------------------------------------
-- Worker-map helper lemmas
-- ---------------------------------------------------------------------------

theorem find?_map_id_preserving (f : WorkerInfo → WorkerInfo)
    (hf : ∀ w, (f w).id = w.id) (ws : List WorkerInfo) (workerId : String) :
    (ws.map f).find? (fun w => w.id == workerId)
      = (ws.find? (fun w => w.id == workerId)).map f := by
  induction ws with
  | nil => rfl
  | cons w ws ih =>
    simp only [List.map_cons, List.find?_cons, hf w]
    cases hw : (w.id == workerId)
    · simpa using ih
    · rfl

theorem find?_map_set (ws : List WorkerInfo) (info : WorkerInfo)
    (hany : ws.any (fun w => w.id == info.id) = true) :
    (ws.map (fun w => if w.id == info.id then info else w)).find?
      (fun w => w.id == info.id) = some info := by
  induction ws with
  | nil => simp at hany
  | cons w ws ih =>
    simp only [List.any_cons, Bool.or_eq_true] at hany
    simp only [List.map_cons]
    by_cases hw : (w.id == info.id) = true
    · rw [if_pos hw]
      simp [List.find?_cons]
    · rw [if_neg hw]
      simp only [List.find?_cons,
        show (w.id == info.id) = false from by simpa using hw]
      exact ih (hany.resolve_left hw)

theorem find?_append_single (ws : List WorkerInfo) (info : WorkerInfo)
    (hnone : ws.any (fun w => w.id == info.id) = false) :
    (ws ++ [info]).find? (fun w => w.id == info.id) = some info := by
  induction ws with
  | nil =>
    simp [List.find?_cons]
  | cons w ws ih =>
    simp only [List.any_cons, Bool.or_eq_false_iff] at hnone
    simp only [List.cons_append, List.find?_cons, hnone.1]
    exact ih hnone.2

theorem findWorker_setWorker_self (ws : List WorkerInfo) (info : WorkerInfo) :
    (WorkerPool.setWorker ws info).find? (fun w => w.id == info.id)
      = some info := by
  unfold WorkerPool.setWorker
  split
  · next h => exact find?_map_set ws info h
  · next h =>
    exact find?_append_single ws info (by
      cases hv : ws.any (fun w => w.id == info.id) with
      | false => rfl
      | true => exact absurd hv h)

-- ---------------------------------------------------------------------------
-- C9
-- ---------------------------------------------------------------------------

/-- C9 counterexample: an offline worker re-registered with the same id is
still offline after `register` returns — both the returned info and the
stored entry keep status offline, because `register` preserves the existing
status (`existing?.status ?? "idle"`). -/
theorem register_offline_counterexample :
    (WorkerPool.register
        (WorkerPool.markOffline (WorkerPool.register emptyPool seedP2 0).2 "p2")
        seedP2 5).1.status = .offline ∧
    ((WorkerPool.findWorker
        (WorkerPool.register
          (WorkerPool.markOffline (WorkerPool.register emptyPool seedP2 0).2 "p2")
          seedP2 5).2 "p2").map (·.status)) = some .offline := by
  constructor
  · rfl
  · decide

/-- C9 amended: re-registration with an existing id preserves the previous
runtime state — status (offline included), gpuUtilization and
activeRequests — and stores that worker; offline is not cleared by
re-registration (only a health probe that patches the status does that). -/
theorem register_preserves_status (p : WorkerPool) (seed : WorkerSeedConfig)
    (now : Int) (w : WorkerInfo)
    (h : WorkerPool.findWorker p seed.id = some w) :
    (WorkerPool.register p seed now).1.status = w.status ∧
    (WorkerPool.register p seed now).1.gpuUtilization = w.gpuUtilization ∧
    (WorkerPool.register p seed now).1.activeRequests = w.activeRequests ∧
    WorkerPool.findWorker (WorkerPool.register p seed now).2 seed.id
      = some (WorkerPool.register p seed now).1 := by
  unfold WorkerPool.register
  rw [h]
  refine ⟨rfl, rfl, rfl, ?_⟩
  dsimp only
  unfold WorkerPool.findWorker
  have hh := findWorker_setWorker_self p.workers
    { id := seed.id, endpoint := seed.endpoint, role := seed.role,
      status := (Option.map (fun x => x.status) (some w)).getD WorkerStatus.idle,
      gpuUtilization := (Option.map (fun x => x.gpuUtilization) (some w)).getD 0,
      activeRequests := (Option.map (fun x => x.activeRequests) (some w)).getD 0,
      maxConcurrency := seed.maxConcurrency.getD 32, lastHealthCheck := now,
      modelId := seed.modelId }
  exact hh

/-- Witness for C9 amended: a worker marked busy by a probe keeps that
status across re-registration (this is also what the repository's own
worker-pool test asserts). -/
theorem register_preserves_status_witness :
    (WorkerPool.register pBusy seedP2 5).1.status = wBusy.status :=
  (register_preserves_status pBusy seedP2 5 wBusy (by decide)).1

-- ---------------------------------------------------------------------------
-- C4
-- ---------------------------------------------------------------------------

theorem findWorker_active_nonneg (p : WorkerPool) (workerId : String)
    (hp : poolNonneg p) :
    0 ≤ (((WorkerPool.findWorker p workerId).map (·.activeRequests)).getD 0) := by
  cases hfind : WorkerPool.findWorker p workerId with
  | none => simp
  | some v =>
    simp only [Option.map_some', Option.getD_some]
    exact hp v (List.mem_of_find?_eq_some hfind)

theorem poolNonneg_applyPoolOp (p : WorkerPool) (op : PoolOp)
    (hp : poolNonneg p) (hop : goodMetricsOp op) :
    poolNonneg (applyPoolOp p op) := by
  cases op with
  | register seed now =>
    intro w hw
    have hnn := findWorker_active_nonneg p seed.id hp
    simp only [applyPoolOp, WorkerPool.register, WorkerPool.setWorker] at hw
    split at hw
    · rcases List.mem_map.mp hw with ⟨y, hy, rfl⟩
      split
      · exact hnn
      · exact hp y hy
    · rcases List.mem_append.mp hw with hy | hy
      · exact hp w hy
      · rcases List.mem_singleton.mp hy with rfl
        exact hnn
  | incrementActive workerId =>
    intro w hw
    simp only [applyPoolOp, WorkerPool.incrementActive] at hw
    rcases List.mem_map.mp hw with ⟨y, hy, rfl⟩
    have := hp y hy
    split
    · show 0 ≤ y.activeRequests + 1
      omega
    · exact this
  | decrementActive workerId =>
    intro w hw
    simp only [applyPoolOp, WorkerPool.decrementActive] at hw
    rcases List.mem_map.mp hw with ⟨y, hy, rfl⟩
    split
    · show 0 ≤ max 0 (y.activeRequests - 1)
      exact le_max_left 0 _
    · exact hp y hy
  | updateMetrics workerId m now =>
    intro w hw
    simp only [applyPoolOp, WorkerPool.updateMetrics] at hw
    split at hw
    · exact hp w hw
    · rcases List.mem_map.mp hw with ⟨y, hy, rfl⟩
      split
      · cases ha : m.activeRequests with
        | none => simpa [ha] using hp y hy
        | some a => simpa [ha] using hop a ha
      · exact hp y hy
  | markOffline workerId =>
    intro w hw
    simp only [applyPoolOp, WorkerPool.markOffline] at hw
    rcases List.mem_map.mp hw with ⟨y, hy, rfl⟩
    split
    · exact hp y hy
    · exact hp y hy
  | expireStaleWorkers t now =>
    intro w hw
    simp only [applyPoolOp, WorkerPool.expireStaleWorkers] at hw
    rcases List.mem_map.mp hw with ⟨y, hy, rfl⟩
    split
    · exact hp y hy
    · exact hp y hy

theorem poolNonneg_foldl (ops : List PoolOp) (p : WorkerPool)
    (hp : poolNonneg p) (hops : ∀ op ∈ ops, goodMetricsOp op) :
    poolNonneg (ops.foldl applyPoolOp p) := by
  induction ops generalizing p with
  | nil => exact hp
  | cons op ops ih =>
    exact ih _ (poolNonneg_applyPoolOp p op hp (hops op (by simp)))
      (fun o ho => hops o (by simp [ho]))

/-- C4 counterexample: `incrementActive` has no upper clamp — registering a
worker with `maxConcurrency = 1` and incrementing twice leaves it at
`activeRequests = 2 > maxConcurrency`. -/
theorem activeRequests_upper_counterexample :
    ∃ w ∈ ([PoolOp.register seedP1cap1 0, PoolOp.incrementActive "p1",
        PoolOp.incrementActive "p1"].foldl applyPoolOp emptyPool).workers,
      w.maxConcurrency < w.activeRequests := by decide

/-- C4 amended: after any sequence of pool operations starting from the
empty pool (with health probes reporting nonnegative active-request
counts), every worker satisfies `0 ≤ activeRequests`; `decrementActive` on a
worker at 0 clamps at 0.  The upper bound does not hold: `incrementActive`
increments unconditionally (it only flips the status to busy at or above
`maxConcurrency`), so `activeRequests` can exceed `maxConcurrency`. -/
theorem activeRequests_lower_bound (ops : List PoolOp)
    (hops : ∀ op ∈ ops, goodMetricsOp op) :
    (∀ w ∈ (ops.foldl applyPoolOp emptyPool).workers, 0 ≤ w.activeRequests) ∧
    (∀ (p : WorkerPool) (workerId : String) (w : WorkerInfo),
      WorkerPool.findWorker p workerId = some w → w.activeRequests = 0 →
      ∃ w2, WorkerPool.findWorker (WorkerPool.decrementActive p workerId) workerId
          = some w2 ∧ w2.activeRequests = 0) := by
  constructor
  · exact poolNonneg_foldl ops emptyPool (by intro w hw; simp [emptyPool] at hw) hops
  · intro p workerId w hfind h0
    have hfind2 : p.workers.find? (fun v => v.id == workerId) = some w := hfind
    have hpred : (w.id == workerId) = true := by
      have hp2 := List.find?_some hfind2
      simpa using hp2
    refine ⟨{ w with
        activeRequests := max 0 (w.activeRequests - 1)
        status :=
          if w.status == .busy && max 0 (w.activeRequests - 1) < w.maxConcurrency
          then .idle else w.status }, ?_, ?_⟩
    · unfold WorkerPool.decrementActive WorkerPool.findWorker
      rw [find?_map_id_preserving _ (fun v => by dsimp only; split <;> rfl)
        p.workers workerId, hfind2]
      simp only [Option.map_some']
      rw [if_pos hpred]
    · simp only [h0]
      decide

/-- Witness for C4 amended at a concrete operation sequence. -/
theorem activeRequests_lower_bound_witness :
    ∃ w2, WorkerPool.findWorker
        (WorkerPool.decrementActive (WorkerPool.register emptyPool seedP2 0).2 "p2")
        "p2" = some w2 ∧ w2.activeRequests = 0 :=
  (activeRequests_lower_bound [] (by intro op hop; simp at hop)).2
    (WorkerPool.register emptyPool seedP2 0).2 "p2"
    (WorkerPool.register emptyPool seedP2 0).1 (by decide) (by decide)

-- ---------------------------------------------------------------------------
-- C5: basic select lemmas and the counterexample
-- ---------------------------------------------------------------------------

theorem select_rr_none (p : WorkerPool) (role : WorkerRole)
    (h : WorkerPool.available p role = []) :
    WorkerPool.select p role .roundRobin = (none, p) := by
  simp [WorkerPool.select, h]

theorem select_rr_some (p : WorkerPool) (role : WorkerRole)
    (h : WorkerPool.available p role ≠ []) :
    WorkerPool.select p role .roundRobin =
      ((WorkerPool.available p role)[WorkerPool.rrCounter p role %
          (WorkerPool.available p role).length]?,
       WorkerPool.bumpCounter p role) := by
  simp [WorkerPool.select, h]

/-- C5 counterexample: a `select(role, "round-robin")` call that returns no
worker does not advance the per-role counter — on the empty pool the
prefill counter stays 0 instead of advancing to 1. -/
theorem select_counter_counterexample :
    (WorkerPool.select emptyPool .prefill .roundRobin).1 = none ∧
    WorkerPool.rrCounter (WorkerPool.select emptyPool .prefill .roundRobin).2
        .prefill = WorkerPool.rrCounter emptyPool .prefill ∧
    WorkerPool.rrCounter (WorkerPool.select emptyPool .prefill .roundRobin).2
        .prefill ≠ WorkerPool.rrCounter emptyPool .prefill + 1 := by
  decide

theorem available_workers_congr (p q : WorkerPool) (role : WorkerRole)
    (h : p.workers = q.workers) :
    WorkerPool.available p role = WorkerPool.available q role := by
  unfold WorkerPool.available WorkerPool.listRole
  rw [h]

theorem bumpCounter_workers (p : WorkerPool) (role : WorkerRole) :
    (WorkerPool.bumpCounter p role).workers = p.workers := by
  cases role <;> rfl

theorem rrCounter_bumpCounter (p : WorkerPool) (role : WorkerRole) :
    WorkerPool.rrCounter (WorkerPool.bumpCounter p role) role
      = WorkerPool.rrCounter p role + 1 := by
  cases role <;> rfl

theorem selectN_rr (n : Nat) (p : WorkerPool) (role : WorkerRole)
    (h : WorkerPool.available p role ≠ []) :
    (selectN n p role).1 = (List.range n).map (fun i =>
      (WorkerPool.available p role)[(WorkerPool.rrCounter p role + i) %
        (WorkerPool.available p role).length]?) := by
  induction n generalizing p with
  | zero => simp [selectN]
  | succ n ih =>
    have hsel := select_rr_some p role h
    have hav : WorkerPool.available (WorkerPool.bumpCounter p role) role
        = WorkerPool.available p role :=
      available_workers_congr _ _ role (bumpCounter_workers p role)
    have hih := ih (WorkerPool.bumpCounter p role) (by rw [hav]; exact h)
    rw [hav, rrCounter_bumpCounter] at hih
    show ((WorkerPool.select p role .roundRobin).1 ::
        (selectN n (WorkerPool.select p role .roundRobin).2 role).1) = _
    rw [hsel]
    simp only [List.range_succ_eq_map, List.map_cons, List.map_map, hih,
      Nat.add_zero]
    congr 1
    apply List.map_congr_left
    intro i _
    have he : WorkerPool.rrCounter p role + 1 + i
        = WorkerPool.rrCounter p role + (i + 1) := by omega
    simp only [Function.comp, Nat.succ_eq_add_one, he]

/-- C5 amended: `select(role, "round-robin")` keeps a per-role counter and,
when at least one candidate is available, returns the candidate at index
`counter % candidateCount` and advances the counter; a call that returns no
worker (no available candidate) leaves the counter unchanged — the counter
advances only on calls that return a worker.  Consequently, with a fixed set
of N available workers of that role, N consecutive calls return each of the
N workers exactly once. -/
theorem select_roundRobin_spec (p : WorkerPool) (role : WorkerRole) :
    (WorkerPool.available p role = [] →
      WorkerPool.select p role .roundRobin = (none, p)) ∧
    (WorkerPool.available p role ≠ [] →
      (WorkerPool.select p role .roundRobin).1
          = (WorkerPool.available p role)[WorkerPool.rrCounter p role %
              (WorkerPool.available p role).length]? ∧
      WorkerPool.rrCounter (WorkerPool.select p role .roundRobin).2 role
          = WorkerPool.rrCounter p role + 1) ∧
    (WorkerPool.available p role ≠ [] →
      ((selectN (WorkerPool.available p role).length p role).1).Perm
        ((WorkerPool.available p role).map some)) := by
  refine ⟨select_rr_none p role, fun h => ?_, fun h => ?_⟩
  · rw [select_rr_some p role h]
    exact ⟨rfl, rrCounter_bumpCounter p role⟩
  · have hlen : 0 < (WorkerPool.available p role).length := List.length_pos.mpr h
    rw [selectN_rr _ p role h]
    have heq : (List.range (WorkerPool.available p role).length).map (fun i =>
        (WorkerPool.available p role)[(WorkerPool.rrCounter p role + i) %
          (WorkerPool.available p role).length]?)
        = ((WorkerPool.available p role).rotate
            (WorkerPool.rrCounter p role % (WorkerPool.available p role).length)).map
            some := by
      apply List.ext_getElem?
      intro i
      by_cases hi : i < (WorkerPool.available p role).length
      · have hmod : (i + WorkerPool.rrCounter p role %
            (WorkerPool.available p role).length) %
              (WorkerPool.available p role).length
            = (WorkerPool.rrCounter p role + i) %
              (WorkerPool.available p role).length := by
          rw [Nat.add_mod_mod, Nat.add_comm]
        have hlt : (WorkerPool.rrCounter p role + i) %
            (WorkerPool.available p role).length
            < (WorkerPool.available p role).length := Nat.mod_lt _ hlen
        rw [List.getElem?_map, List.getElem?_map, List.getElem?_range hi,
          List.getElem?_rotate hi, hmod, List.getElem?_eq_getElem hlt]
        simp only [Option.map_some']
        rw [List.getElem?_eq_getElem hlt]
      · have h1 : ((List.range (WorkerPool.available p role).length).map (fun i =>
            (WorkerPool.available p role)[(WorkerPool.rrCounter p role + i) %
              (WorkerPool.available p role).length]?))[i]? = none := by
          apply List.getElem?_eq_none
          simpa using Nat.le_of_not_lt hi
        have h2 : (((WorkerPool.available p role).rotate
            (WorkerPool.rrCounter p role %
              (WorkerPool.available p role).length)).map some)[i]? = none := by
          apply List.getElem?_eq_none
          simpa [List.length_rotate] using Nat.le_of_not_lt hi
        rw [h1, h2]
    rw [heq]
    exact (List.rotate_perm _ _).map some

/-- Witness for C5 amended: on a pool with two available prefill workers,
two consecutive round-robin selections return each worker exactly once. -/
theorem select_roundRobin_witness :
    ((selectN (WorkerPool.available pool2 .prefill).length pool2 .prefill).1).Perm
      ((WorkerPool.available pool2 .prefill).map some) :=
  (select_roundRobin_spec pool2 .prefill).2.2 (by decide)

-- ---------------------------------------------------------------------------
-- C6
-- ---------------------------------------------------------------------------

theorem drainGo_inv (fuel : Nat) (s : KVManagerState)
    (h1 : s.activeTransfers ≤ s.maxConcurrent)
    (h3 : s.pendingStarted ++ s.pending = s.pendingArrived)
    (hfuel : s.pending.length ≤ fuel) :
    (drainGo fuel s).activeTransfers ≤ (drainGo fuel s).maxConcurrent ∧
    ((drainGo fuel s).pending ≠ [] →
      (drainGo fuel s).activeTransfers = (drainGo fuel s).maxConcurrent) ∧
    (drainGo fuel s).pendingStarted ++ (drainGo fuel s).pending
      = (drainGo fuel s).pendingArrived ∧
    (drainGo fuel s).maxConcurrent = s.maxConcurrent := by
  induction fuel generalizing s with
  | zero =>
    have hp : s.pending = [] := List.eq_nil_of_length_eq_zero (Nat.le_zero.mp hfuel)
    exact ⟨h1, fun hne => absurd hp hne, h3, rfl⟩
  | succ fuel ih =>
    cases hp : s.pending with
    | nil =>
      simp only [drainGo, hp]
      rw [hp] at h3
      refine ⟨h1, fun hne => absurd rfl hne, ?_, trivial⟩
      simpa using h3
    | cons j rest =>
      by_cases hlt : s.activeTransfers < s.maxConcurrent
      · simp only [drainGo, hp, hlt, if_true, ite_true]
        have hres := ih (startExec { s with pending := rest } j true)
          (by simpa [startExec] using hlt)
          (by
            rw [hp] at h3
            simp only [startExec, ite_true]
            simpa [List.append_assoc] using h3)
          (by
            have hl : s.pending.length = rest.length + 1 := by rw [hp]; rfl
            simp only [startExec]
            omega)
        have hmc : (startExec { s with pending := rest } j true).maxConcurrent
            = s.maxConcurrent := rfl
        exact ⟨hres.1, hres.2.1, hres.2.2.1, hres.2.2.2.trans hmc⟩
      · simp only [drainGo, hp, hlt, if_false, ite_false]
        rw [hp] at h3
        exact ⟨h1, fun _ => Nat.le_antisymm h1 (Nat.le_of_not_lt hlt), h3, trivial⟩

theorem kvInv_kvStep (s : KVManagerState) (e : KVEvent) (h : kvInv s) :
    kvInv (kvStep s e) ∧ (kvStep s e).maxConcurrent = s.maxConcurrent := by
  obtain ⟨h1, h2, h3⟩ := h
  cases e with
  | arrive req =>
    by_cases hlt : s.activeTransfers < s.maxConcurrent
    · have hpend : s.pending = [] := by
        by_contra hne
        exact absurd (h2 hne) (Nat.ne_of_lt hlt)
      have he : kvStep s (.arrive req) = startExec s req false := by
        simp [kvStep, transfer, hlt]
      rw [he]
      refine ⟨⟨?_, ?_, ?_⟩, rfl⟩
      · simp only [startExec]
        omega
      · intro hne
        simp only [startExec] at hne
        exact absurd hpend hne
      · simpa [startExec] using h3
    · have he : kvStep s (.arrive req) =
          { s with pending := s.pending ++ [req],
                   pendingArrived := s.pendingArrived ++ [req] } := by
        simp [kvStep, transfer, hlt]
      rw [he]
      refine ⟨⟨h1, fun _ => Nat.le_antisymm h1 (Nat.le_of_not_lt hlt), ?_⟩, rfl⟩
      show s.pendingStarted ++ (s.pending ++ [req]) = s.pendingArrived ++ [req]
      rw [← List.append_assoc, h3]
  | finish =>
    by_cases h0 : s.activeTransfers = 0
    · have he : kvStep s .finish = s := by simp [kvStep, kvFinish, h0]
      rw [he]
      exact ⟨⟨h1, h2, h3⟩, rfl⟩
    · have he : kvStep s .finish =
          drainPending { s with activeTransfers := s.activeTransfers - 1 } := by
        simp [kvStep, kvFinish, h0]
      rw [he]
      unfold drainPending
      have hres := drainGo_inv _ { s with activeTransfers := s.activeTransfers - 1 }
        (Nat.le_trans (Nat.sub_le _ _) h1) h3 (Nat.le_refl _)
      exact ⟨⟨hres.1, hres.2.1, hres.2.2.1⟩, hres.2.2.2⟩

theorem kvInv_runKV (maxConcurrent : Nat) (events : List KVEvent) :
    kvInv (runKV maxConcurrent events) ∧
    (runKV maxConcurrent events).maxConcurrent = maxConcurrent := by
  suffices hgen : ∀ (s : KVManagerState), kvInv s →
      kvInv (events.foldl kvStep s) ∧
      (events.foldl kvStep s).maxConcurrent = s.maxConcurrent by
    have hinit : kvInv (initKV maxConcurrent) := by
      refine ⟨Nat.zero_le _, fun hne => absurd rfl hne, rfl⟩
    exact (hgen (initKV maxConcurrent) hinit)
  induction events with
  | nil => exact fun s hs => ⟨hs, rfl⟩
  | cons e es ih =>
    intro s hs
    have hstep := kvInv_kvStep s e hs
    have hrest := ih (kvStep s e) hstep.1
    exact ⟨hrest.1, hrest.2.trans hstep.2⟩

/-- C6: in the KVCacheTransferManager, after any sequence of transfer
arrivals and settlements, `activeTransfers ≤ maxConcurrent` holds at every
observable instant, and the jobs taken off the pending list into execution
(`pendingStarted`), followed by the jobs still pending, are exactly the jobs
ever pushed onto the pending list in their arrival order — i.e. pending jobs
begin executing in exactly their insertion (FIFO) order. -/
theorem kv_transfer_invariant (maxConcurrent : Nat) (events : List KVEvent) :
    (runKV maxConcurrent events).activeTransfers ≤ maxConcurrent ∧
    (runKV maxConcurrent events).pendingStarted ++ (runKV maxConcurrent events).pending
      = (runKV maxConcurrent events).pendingArrived := by
  have h := kvInv_runKV maxConcurrent events
  refine ⟨?_, h.1.2.2⟩
  have hle := h.1.1
  rw [h.2] at hle
  exact hle

/-- Witness for C6 at a concrete event sequence that exercises the pending
queue (capacity 1, two arrivals, one settlement). -/
theorem kv_transfer_invariant_witness :
    (runKV 1 [.arrive jobA, .arrive jobB, .finish]).activeTransfers ≤ 1 ∧
    (runKV 1 [.arrive jobA, .arrive jobB, .finish]).pendingStarted ++
        (runKV 1 [.arrive jobA, .arrive jobB, .finish]).pending
      = (runKV 1 [.arrive jobA, .arrive jobB, .finish]).pendingArrived :=
  kv_transfer_invariant 1 [.arrive jobA, .arrive jobB, .finish]

-- ---------------------------------------------------------------------------
-- The dispatch-tick order and its characterization (C3, C10)
-- ---------------------------------------------------------------------------

theorem reqLE_refl (r : InferenceRequest) : reqLE r r = true := by
  simp [reqLE]

theorem reqLE_trans (a b c : InferenceRequest) (hab : reqLE a b = true)
    (hbc : reqLE b c = true) : reqLE a c = true := by
  simp only [reqLE, Bool.or_eq_true, Bool.and_eq_true, decide_eq_true_eq] at *
  rcases hab with h1 | ⟨h1, h2⟩ <;> rcases hbc with h3 | ⟨h3, h4⟩
  · exact Or.inl (h1.trans h3)
  · exact Or.inl (h3 ▸ h1)
  · exact Or.inl (h1 ▸ h3)
  · exact Or.inr ⟨h1.trans h3, le_trans h2 h4⟩

theorem reqLE_total (a b : InferenceRequest) : (reqLE a b || reqLE b a) = true := by
  simp only [reqLE, Bool.or_eq_true, Bool.and_eq_true, decide_eq_true_eq]
  rcases Nat.lt_trichotomy (priorityRank a.priority) (priorityRank b.priority)
    with h | h | h
  · exact Or.inl (Or.inl h)
  · rcases Int.le_total a.createdAt b.createdAt with hle | hle
    · exact Or.inl (Or.inr ⟨h, hle⟩)
    · exact Or.inr (Or.inr ⟨h.symm, hle⟩)
  · exact Or.inr (Or.inl h)

theorem dispatch_result (s : PDScheduler) (now : Int) (hq : s.queue.length ≠ 0) :
    ((dispatch s now).2 = none ∧
      (dispatch s now).1.queue
        = (s.queue.mergeSort reqLE).filter (fun r => !expiredB now r)) ∨
    (∃ w r rest,
      (s.queue.mergeSort reqLE).filter (fun r => !expiredB now r) = r :: rest ∧
      (dispatch s now).2 = some (r, w) ∧
      (dispatch s now).1.queue = rest) := by
  simp only [dispatch, hq, if_false, ite_false]
  set keep := (s.queue.mergeSort reqLE).filter (fun r => !expiredB now r)
    with hkeepdef
  set exps := ((s.queue.mergeSort reqLE).filter (fun r => expiredB now r)).reverse
    with hexpsdef
  set s1 := sweepFail { s with queue := keep } exps with hs1def
  have hq1 : s1.queue = keep := (sweepFail_frame exps _).1
  rcases hsel : (WorkerPool.select s1.pool .prefill s1.strategy).1 with _ | w
  · simp only [hsel]
    exact Or.inl ⟨by trivial, hq1⟩
  · simp only [hsel, hq1]
    cases hkeep : keep with
    | nil =>
      simp only [hkeep]
      refine Or.inl ⟨?_, ?_⟩ <;> trivial
    | cons r rest =>
      simp only [hkeep]
      refine Or.inr ⟨w, r, rest, rfl, ?_, ?_⟩ <;> trivial

theorem dispatch_select_none (s : PDScheduler) (now : Int)
    (hsel : (WorkerPool.select s.pool .prefill s.strategy).1 = none) :
    (dispatch s now).2 = none ∧
    ((dispatch s now).1.queue).Perm (s.queue.filter (fun r => !expiredB now r)) := by
  by_cases hq : s.queue.length = 0
  · have hnil : s.queue = [] := List.eq_nil_of_length_eq_zero hq
    simp only [dispatch, hq, if_true, ite_true]
    simp [hnil]
  · simp only [dispatch, hq, if_false, ite_false]
    set keep := (s.queue.mergeSort reqLE).filter (fun r => !expiredB now r)
      with hkeepdef
    set exps := ((s.queue.mergeSort reqLE).filter (fun r => expiredB now r)).reverse
      with hexpsdef
    set s1 := sweepFail { s with queue := keep } exps with hs1def
    have hq1 : s1.queue = keep := (sweepFail_frame exps _).1
    have hpool : s1.pool = s.pool := (sweepFail_frame exps _).2.2.1
    have hstrat : s1.strategy = s.strategy := (sweepFail_frame exps _).2.2.2.1
    have hsel2 : (WorkerPool.select s1.pool .prefill s1.strategy).1 = none := by
      rw [hpool, hstrat]
      exact hsel
    simp only [hsel2]
    refine ⟨by trivial, ?_⟩
    show s1.queue.Perm (s.queue.filter (fun r => !expiredB now r))
    rw [hq1, hkeepdef]
    exact (List.mergeSort_perm s.queue reqLE).filter _

/-- C3: each dispatch tick launches at most one request (the per-tick queue
shrinks by exactly the expired entries plus at most one launched request);
the launched request is a queued, non-expired request that is minimal among
the queued non-expired requests under the lexicographic order (priority rank
high=0 / normal=1 / low=2 ascending, then createdAt ascending); and when no
prefill worker is selectable, no request is launched and the queue keeps
exactly its non-expired requests (it is not drained). -/
theorem dispatch_tick_spec (s : PDScheduler) (now : Int) :
    (∀ r w, (dispatch s now).2 = some (r, w) →
      r ∈ s.queue ∧ expiredB now r = false ∧
      ∀ x ∈ s.queue, expiredB now x = false → reqLE r x = true) ∧
    ((dispatch s now).1.queue.length +
        (if (dispatch s now).2.isSome then 1 else 0)
      = (s.queue.filter (fun r => !expiredB now r)).length) ∧
    ((WorkerPool.select s.pool .prefill s.strategy).1 = none →
      (dispatch s now).2 = none ∧
      ((dispatch s now).1.queue).Perm
        (s.queue.filter (fun r => !expiredB now r))) := by
  have hperm : ((s.queue.mergeSort reqLE).filter (fun r => !expiredB now r)).Perm
      (s.queue.filter (fun r => !expiredB now r)) :=
    (List.mergeSort_perm s.queue reqLE).filter _
  have hpair : ((s.queue.mergeSort reqLE).filter (fun r => !expiredB now r)).Pairwise
      (fun a b => reqLE a b = true) := by
    have hsorted : (s.queue.mergeSort reqLE).Pairwise (fun a b => reqLE a b = true) :=
      List.sorted_mergeSort (fun a b c => reqLE_trans a b c)
        (fun a b => reqLE_total a b) s.queue
    exact List.Pairwise.sublist (List.filter_sublist _) hsorted
  refine ⟨?_, ?_, dispatch_select_none s now⟩
  · intro r w hlaunch
    by_cases hq : s.queue.length = 0
    · rw [show dispatch s now = (s, none) from by simp [dispatch, hq]] at hlaunch
      exact absurd hlaunch (by simp)
    · rcases dispatch_result s now hq with ⟨hnone, _⟩ | ⟨w2, r2, rest, hkeep, hsome, _⟩
      · rw [hnone] at hlaunch
        exact absurd hlaunch (by simp)
      · rw [hsome] at hlaunch
        obtain ⟨hr2, _⟩ : r2 = r ∧ w2 = w := by
          have h1 := hlaunch
          simp only [Option.some_inj, Prod.mk.injEq] at h1
          exact ⟨h1.1, h1.2⟩
        rw [← hr2]
        have hrkeep : r2 ∈ (s.queue.mergeSort reqLE).filter (fun x => !expiredB now x) := by
          rw [hkeep]
          exact List.mem_cons_self r2 rest
        have hrmem := List.mem_filter.mp hrkeep
        refine ⟨(List.mergeSort_perm s.queue reqLE).subset hrmem.1, by simpa using hrmem.2, ?_⟩
        intro x hx hxe
        have hxkeep : x ∈ (s.queue.mergeSort reqLE).filter (fun y => !expiredB now y) :=
          List.mem_filter.mpr ⟨(List.mergeSort_perm s.queue reqLE).symm.subset hx,
            by simpa using hxe⟩
        rw [hkeep] at hxkeep
        rcases List.mem_cons.mp hxkeep with rfl | hxrest
        · exact reqLE_refl x
        · rw [hkeep] at hpair
          exact (List.pairwise_cons.mp hpair).1 x hxrest
  · by_cases hq : s.queue.length = 0
    · have hnil : s.queue = [] := List.eq_nil_of_length_eq_zero hq
      rw [show dispatch s now = (s, none) from by simp [dispatch, hq]]
      simp [hnil]
    · rcases dispatch_result s now hq with ⟨hnone, hqueue⟩ | ⟨w, r, rest, hkeep, hsome, hqueue⟩
      · rw [hnone, hqueue]
        simp only [Option.isSome_none, Bool.false_eq_true, if_false, ite_false,
          Nat.add_zero]
        exact hperm.length_eq
      · rw [hsome, hqueue]
        simp only [Option.isSome_some, if_true, ite_true]
        have hlen := hperm.length_eq
        rw [hkeep] at hlen
        simpa using hlen

/-- Witness for C3: on a scheduler with one queued request and no workers,
`select` returns none and the tick launches nothing. -/
theorem dispatch_tick_witness :
    (dispatch (runSched cfg10 0 [SchedOp.submit optsA 0]) 1).2 = none :=
  ((dispatch_tick_spec (runSched cfg10 0 [SchedOp.submit optsA 0]) 1).2.2
    (by decide)).1

/-- C10: `submit` keeps an explicit `timeoutMs = 0` (the `??` default only
replaces null/undefined), the timeout sweep predicate treats a zero
`timeoutMs` as "no timeout" (JS falsiness short-circuits the check), and
consequently a queued request with `timeoutMs = 0` is never failed by the
tick's sweep no matter how old it is: it either stays in the queue or is
launched. -/
theorem zero_timeout_spec (s : PDScheduler) (opts : SubmitOpts) (now now2 : Int)
    (r : InferenceRequest) :
    (opts.timeoutMs = some 0 → (mkRequest s opts now).timeoutMs = 0) ∧
    (r.timeoutMs = 0 → expiredB now2 r = false) ∧
    (r ∈ s.queue → r.timeoutMs = 0 →
      r ∈ (dispatch s now2).1.queue ∨ ∃ w, (dispatch s now2).2 = some (r, w)) := by
  refine ⟨fun h0 => by simp [mkRequest, h0], fun h0 => by simp [expiredB, h0], ?_⟩
  intro hmem h0
  have hnotexp : (!expiredB now2 r) = true := by simp [expiredB, h0]
  by_cases hq : s.queue.length = 0
  · exact absurd hmem (by simp [List.eq_nil_of_length_eq_zero hq])
  · have hrkeep : r ∈ (s.queue.mergeSort reqLE).filter (fun x => !expiredB now2 x) :=
      List.mem_filter.mpr ⟨(List.mergeSort_perm s.queue reqLE).symm.subset hmem, hnotexp⟩
    rcases dispatch_result s now2 hq with ⟨_, hqueue⟩ | ⟨w, r2, rest, hkeep, hsome, hqueue⟩
    · exact Or.inl (hqueue ▸ hrkeep)
    · rw [hkeep] at hrkeep
      rcases List.mem_cons.mp hrkeep with rfl | hxrest
      · exact Or.inr ⟨w, hsome⟩
      · exact Or.inl (hqueue ▸ hxrest)

/-- Witness for C10: a request submitted with `timeoutMs = 0` survives a
tick that runs arbitrarily far in the future. -/
theorem zero_timeout_witness :
    mkRequest (initSched cfg10 0) opts0 0 ∈
        (dispatch (runSched cfg10 0 [SchedOp.submit opts0 0]) 999999999).1.queue ∨
      ∃ w, (dispatch (runSched cfg10 0 [SchedOp.submit opts0 0]) 999999999).2
          = some (mkRequest (initSched cfg10 0) opts0 0, w) :=
  (zero_timeout_spec (runSched cfg10 0 [SchedOp.submit opts0 0]) opts0 0 999999999
    (mkRequest (initSched cfg10 0) opts0 0)).2.2 (by decide) (by decide)

-- ---------------------------------------------------------------------------
-- C1
-- ---------------------------------------------------------------------------

/-- C1 counterexample: immediately after a successful `submit`, the new
request id is present in the scheduler queue AND in the in-flight table
simultaneously, while its phase is still non-terminal — `submit` pushes the
request onto the queue and registers the resolver in the in-flight table in
the same step, so a request is not in exactly one of the two structures. -/
theorem queue_inflight_counterexample :
    ((runSched cfg10 0 [SchedOp.submit optsA 0]).queue.map (·.requestId)) = [1] ∧
    (runSched cfg10 0 [SchedOp.submit optsA 0]).inflight = [1] ∧
    ((runSched cfg10 0 [SchedOp.submit optsA 0]).queue.map (·.phase))
      = [RequestPhase.queued] := by
  decide

theorem SInv_init (cfg : PDSchedulerConfig) (now : Int) :
    SInv (initSched cfg now) := by
  refine ⟨List.nodup_nil, ?_, ?_, ?_, ?_, ?_, List.nodup_nil⟩ <;>
    simp [initSched, SInv]

theorem SInv_submit (s : PDScheduler) (opts : SubmitOpts) (now : Int)
    (h : SInv s) : SInv (submit s opts now).1 := by
  obtain ⟨h1, h2, h3, h4, h5, h6, h7⟩ := h
  by_cases hfull : s.maxQueueSize ≤ s.queue.length
  · simpa [submit, hfull] using ⟨h1, h2, h3, h4, h5, h6, h7⟩
  · have hfresh : s.idCounter + 1 ∉ s.inflight := fun hmem => by
      have := (h2 _ hmem).2
      omega
    have hfreshq : s.idCounter + 1 ∉ s.queue.map (·.requestId) := fun hmem => by
      rcases List.mem_map.mp hmem with ⟨r, hr, hid⟩
      exact hfresh (hid ▸ h3 r hr)
    have hfreshp : s.idCounter + 1 ∉ s.pipeline := fun hmem =>
      hfresh (h5 _ hmem)
    simp only [submit, hfull, if_false, ite_false]
    refine ⟨?_, ?_, ?_, ?_, ?_, ?_, h7⟩
    · exact List.Nodup.append h1 (List.nodup_singleton _)
        (fun a ha hb => hfresh (by rwa [List.mem_singleton.mp hb] at ha))
    · intro i hi
      rcases List.mem_append.mp hi with hi | hi
      · exact ⟨(h2 i hi).1, Nat.le_succ_of_le (h2 i hi).2⟩
      · rw [List.mem_singleton.mp hi]
        exact ⟨Nat.succ_le_succ (Nat.zero_le _), Nat.le_refl _⟩
    · intro r hr
      rcases List.mem_append.mp hr with hr | hr
      · exact List.mem_append_left _ (h3 r hr)
      · rw [List.mem_singleton.mp hr]
        exact List.mem_append_right _ (List.mem_singleton_self _)
    · show (List.map (·.requestId) (s.queue ++ [mkRequest s opts now])).Nodup
      rw [List.map_append]
      exact List.Nodup.append h4 (List.nodup_singleton _)
        (fun a ha hb => hfreshq (by rwa [List.mem_singleton.mp hb] at ha))
    · intro i hi
      exact List.mem_append_left _ (h5 i hi)
    · intro r hr
      rcases List.mem_append.mp hr with hr | hr
      · exact h6 r hr
      · rw [List.mem_singleton.mp hr]
        exact hfreshp

theorem SInv_fail (s : PDScheduler) (rid : Nat) (err : String) (h : SInv s)
    (hq : ∀ r ∈ s.queue, r.requestId ≠ rid)
    (hpl : ∀ i ∈ s.pipeline, i ≠ rid) :
    SInv (fail s rid err) := by
  obtain ⟨h1, h2, h3, h4, h5, h6, h7⟩ := h
  by_cases hm : rid ∈ s.inflight <;>
    simp only [fail, emit, hm, if_true, if_false, ite_true, ite_false]
  · refine ⟨h1.erase rid, ?_, ?_, h4, ?_, h6, h7⟩
    · exact fun i hi => h2 i (List.mem_of_mem_erase hi)
    · exact fun r hr => (List.mem_erase_of_ne (hq r hr)).mpr (h3 r hr)
    · exact fun i hi => (List.mem_erase_of_ne (hpl i hi)).mpr (h5 i hi)
  · exact ⟨h1, h2, h3, h4, h5, h6, h7⟩

theorem SInv_completeReq (s : PDScheduler) (rid : Nat) (h : SInv s)
    (hq : ∀ r ∈ s.queue, r.requestId ≠ rid)
    (hpl : ∀ i ∈ s.pipeline, i ≠ rid) :
    SInv (completeReq s rid) := by
  obtain ⟨h1, h2, h3, h4, h5, h6, h7⟩ := h
  by_cases hm : rid ∈ s.inflight <;>
    simp only [completeReq, emit, hm, if_true, if_false, ite_true, ite_false]
  · refine ⟨h1.erase rid, ?_, ?_, h4, ?_, h6, h7⟩
    · exact fun i hi => h2 i (List.mem_of_mem_erase hi)
    · exact fun r hr => (List.mem_erase_of_ne (hq r hr)).mpr (h3 r hr)
    · exact fun i hi => (List.mem_erase_of_ne (hpl i hi)).mpr (h5 i hi)
  · exact ⟨h1, h2, h3, h4, h5, h6, h7⟩

theorem SInv_sweepFail (exps : List InferenceRequest) (s : PDScheduler)
    (h : SInv s)
    (hq : ∀ r ∈ s.queue, ∀ e ∈ exps, r.requestId ≠ e.requestId)
    (hpl : ∀ i ∈ s.pipeline, ∀ e ∈ exps, i ≠ e.requestId) :
    SInv (sweepFail s exps) := by
  induction exps generalizing s with
  | nil => exact h
  | cons e es ih =>
    simp only [sweepFail, List.foldl_cons]
    apply ih (fail s e.requestId "Request timed out in queue")
    · exact SInv_fail s e.requestId _ h
        (fun r hr => hq r hr e (List.mem_cons_self e es))
        (fun i hi => hpl i hi e (List.mem_cons_self e es))
    · intro r hr e2 he2
      rw [(fail_frame s e.requestId _).1] at hr
      exact hq r hr e2 (List.mem_cons_of_mem e he2)
    · intro i hi e2 he2
      rw [(fail_frame s e.requestId _).2.1] at hi
      exact hpl i hi e2 (List.mem_cons_of_mem e he2)

theorem SInv_pipelineFinish (s : PDScheduler) (rid : Nat) (res : Option String)
    (h : SInv s) : SInv (pipelineFinish s rid res) := by
  obtain ⟨h1, h2, h3, h4, h5, h6, h7⟩ := h
  by_cases hp : rid ∈ s.pipeline
  · simp only [pipelineFinish, hp, if_true, ite_true]
    have hinv2 : SInv { s with pipeline := s.pipeline.erase rid } := by
      refine ⟨h1, h2, h3, h4, ?_, ?_, h7.erase rid⟩
      · exact fun i hi => h5 i (List.mem_of_mem_erase hi)
      · exact fun r hr hmem => h6 r hr (List.mem_of_mem_erase hmem)
    have hq2 : ∀ r ∈ s.queue, r.requestId ≠ rid :=
      fun r hr heq => h6 r hr (heq ▸ hp)
    have hpl2 : ∀ i ∈ s.pipeline.erase rid, i ≠ rid :=
      fun i hi => (h7.mem_erase_iff.mp hi).1
    cases res with
    | none => exact SInv_completeReq _ rid hinv2 hq2 hpl2
    | some msg => exact SInv_fail _ rid msg hinv2 hq2 hpl2
  · simp only [pipelineFinish, hp, if_false, ite_false]
    exact ⟨h1, h2, h3, h4, h5, h6, h7⟩

theorem SInv_dispatch (s : PDScheduler) (now : Int) (h : SInv s) :
    SInv (dispatch s now).1 := by
  obtain ⟨h1, h2, h3, h4, h5, h6, h7⟩ := h
  by_cases hq : s.queue.length = 0
  · simpa [dispatch, hq] using ⟨h1, h2, h3, h4, h5, h6, h7⟩
  · simp only [dispatch, hq, if_false, ite_false]
    set sorted := s.queue.mergeSort reqLE with hsorteddef
    set keep := sorted.filter (fun r => !expiredB now r) with hkeepdef
    set exps := (sorted.filter (fun r => expiredB now r)).reverse with hexpsdef
    have hpermq : sorted.Perm s.queue := List.mergeSort_perm s.queue reqLE
    have hsortedNodup : (sorted.map (·.requestId)).Nodup :=
      ((hpermq.map (·.requestId)).nodup_iff).mpr h4
    have hinj := List.inj_on_of_nodup_map hsortedNodup
    have hkeepSubSorted : ∀ r ∈ keep, r ∈ sorted :=
      fun r hr => List.mem_of_mem_filter hr
    have hexpsSubSorted : ∀ e ∈ exps, e ∈ sorted := fun e he =>
      List.mem_of_mem_filter (List.mem_reverse.mp he)
    have hkeepNotExp : ∀ r ∈ keep, ∀ e ∈ exps, r.requestId ≠ e.requestId := by
      intro r hr e he heq
      have hre : r = e := hinj (hkeepSubSorted r hr) (hexpsSubSorted e he) heq
      have hrp := (List.mem_filter.mp hr).2
      have hep := (List.mem_filter.mp (List.mem_reverse.mp he)).2
      rw [hre, hep] at hrp
      exact absurd hrp (by simp)
    have hplNotExp : ∀ i ∈ s.pipeline, ∀ e ∈ exps, i ≠ e.requestId := by
      intro i hi e he heq
      have heq2 : e ∈ s.queue := hpermq.subset (hexpsSubSorted e he)
      exact h6 e heq2 (heq ▸ hi)
    have hkeepNodup : (keep.map (·.requestId)).Nodup :=
      List.Nodup.sublist (List.Sublist.map _ (List.filter_sublist sorted)) hsortedNodup
    have hbase : SInv { s with queue := keep } := by
      refine ⟨h1, h2, ?_, hkeepNodup, h5, ?_, h7⟩
      · exact fun r hr => h3 r (hpermq.subset (hkeepSubSorted r hr))
      · exact fun r hr => h6 r (hpermq.subset (hkeepSubSorted r hr))
    have hs1 : SInv (sweepFail { s with queue := keep } exps) :=
      SInv_sweepFail exps _ hbase (fun r hr => hkeepNotExp r hr)
        (fun i hi => hplNotExp i hi)
    set s1 := sweepFail { s with queue := keep } exps with hs1def
    obtain ⟨g1, g2, g3, g4, g5, g6, g7⟩ := hs1
    have hq1 : s1.queue = keep := (sweepFail_frame exps _).1
    have hp1 : s1.pipeline = s.pipeline := (sweepFail_frame exps _).2.1
    rcases hsel : (WorkerPool.select s1.pool .prefill s1.strategy).1 with _ | w
    · simp only [hsel]
      exact ⟨g1, g2, g3, g4, g5, g6, g7⟩
    · simp only [hsel, hq1]
      cases hkeep : keep with
      | nil =>
        simp only [hkeep]
        refine ⟨g1, g2, ?_, ?_, g5, ?_, g7⟩
        · exact fun r hr => absurd hr (List.not_mem_nil r)
        · simp
        · exact fun r hr => absurd hr (List.not_mem_nil r)
      | cons r rest =>
        simp only [hkeep]
        rw [hq1, hkeep] at g3 g4 g6
        have hrinf : r.requestId ∈ s1.inflight := g3 r (List.mem_cons_self r rest)
        have hrnotpl : r.requestId ∉ s1.pipeline := by
          rw [hp1]
          have : r ∈ s.queue := by
            refine hpermq.subset (hkeepSubSorted r ?_)
            rw [hkeep]
            exact List.mem_cons_self r rest
          exact h6 r this
        refine ⟨g1, g2, ?_, ?_, ?_, ?_, ?_⟩
        · exact fun x hx => g3 x (List.mem_cons_of_mem r hx)
        · exact (List.nodup_cons.mp g4).2
        · intro i hi
          rcases List.mem_append.mp hi with hi | hi
          · exact g5 i hi
          · rw [List.mem_singleton.mp hi]
            exact hrinf
        · intro x hx hmem
          rcases List.mem_append.mp hmem with hmem | hmem
          · exact g6 x (List.mem_cons_of_mem r hx) hmem
          · have hxid : x.requestId = r.requestId := List.mem_singleton.mp hmem
            have hrnot : r.requestId ∉ rest.map (·.requestId) :=
              (List.nodup_cons.mp g4).1
            exact hrnot (hxid ▸ List.mem_map_of_mem (·.requestId) hx)
        · rw [hp1]
          refine List.Nodup.append h7 (List.nodup_singleton _) ?_
          intro a ha hb
          rw [List.mem_singleton.mp hb] at ha
          rw [hp1] at hrnotpl
          exact hrnotpl ha

theorem SInv_applyOp (s : PDScheduler) (op : SchedOp) (h : SInv s) :
    SInv (applyOp s op) := by
  cases op with
  | submit opts now => exact SInv_submit s opts now h
  | tick now => exact SInv_dispatch s now h
  | finish rid res => exact SInv_pipelineFinish s rid res h

theorem SInv_runSched (cfg : PDSchedulerConfig) (now : Int) (ops : List SchedOp) :
    SInv (runSched cfg now ops) := by
  unfold runSched
  suffices hgen : ∀ s : PDScheduler, SInv s → SInv (ops.foldl applyOp s) from
    hgen _ (SInv_init cfg now)
  induction ops with
  | nil => exact fun s hs => hs
  | cons op ops ih =>
    exact fun s hs => ih _ (SInv_applyOp s op hs)

/-- C1 amended: after any sequence of scheduler operations, the queued
request ids are pairwise distinct and every queued request id is also
present in the in-flight table — a request is registered in the in-flight
table from `submit` until it settles, and while queued it is additionally in
the queue, so the two structures overlap rather than being mutually
exclusive. -/
theorem queue_ids_distinct_and_inflight (cfg : PDSchedulerConfig) (now : Int)
    (ops : List SchedOp) :
    ((runSched cfg now ops).queue.map (·.requestId)).Nodup ∧
    ∀ r ∈ (runSched cfg now ops).queue,
      r.requestId ∈ (runSched cfg now ops).inflight := by
  have h := SInv_runSched cfg now ops
  exact ⟨h.2.2.2.1, h.2.2.1⟩

/-- Witness for C1 amended at a concrete submitted request. -/
theorem queue_ids_distinct_and_inflight_witness :
    mkRequest (initSched cfg10 0) optsA 0 ∈
        (runSched cfg10 0 [SchedOp.submit optsA 0]).queue ∧
    (mkRequest (initSched cfg10 0) optsA 0).requestId ∈
        (runSched cfg10 0 [SchedOp.submit optsA 0]).inflight :=
  ⟨by decide,
   (queue_ids_distinct_and_inflight cfg10 0 [SchedOp.submit optsA 0]).2
     (mkRequest (initSched cfg10 0) optsA 0) (by decide)⟩

end OpenClaw
